import Mathlib

/-!
Shallow embedding of `src/dotenv/main.py` (python-dotenv fork): the merge
engine (`resolve_variables`, `DotEnv.update_dict`), the transactional
rewriter (`rewrite`), the key mutators (`set_key`, `unset_key`), the chain
loader (`chained_dotenv_values`) and `DotEnv.set_as_environment_variables`.

Python dicts are modelled as association lists that preserve insertion
order: updating an existing key replaces its value in place, a new key is
appended at the end — exactly the ordering semantics of Python dicts that
the code relies on.  File contents are modelled as `List Char`; the file
system visible to one rewrite transaction is the target path plus the
transaction's temporary file.

The line parser (`dotenv.parser.parse_stream`) and the interpolation-atom
tokenizer (`dotenv.variables.parse_variables`) are not part of the sources;
they are modelled from the spec where needed (each such definition is
marked `Modelled from the spec:`).
-/

namespace Dotenv

/-- Ordered association map, the model of a Python `dict` /
`OrderedDict`: lookup of the first matching key. -/
def lookupK {β : Type} (k : String) : List (String × β) → Option β
  | [] => none
  | (k₁, v) :: t => if k₁ = k then some v else lookupK k t

/-- Python `d[k] = v`: replace the value of an existing key in place
(keeping its position), otherwise append the new entry at the end. -/
def upsert {β : Type} (k : String) (v : β) : List (String × β) → List (String × β)
  | [] => [(k, v)]
  | (k₁, v₁) :: t => if k₁ = k then (k₁, v) :: t else (k₁, v₁) :: upsert k v t

/-- The keys of an association map, in iteration order. -/
def keysOf {β : Type} (m : List (String × β)) : List String :=
  m.map Prod.fst

/-- Environment mapping: key to optional value (`None` allowed), the type
of `DotEnv._dict`, `base_env` and the result of `resolve_variables`. -/
abbrev EnvMap := List (String × Option String)

/-- Python `a.update(b)` / `\x7b**a, **b\x7d`: entries of `b` merged into `a`,
`b` winning, existing keys keeping their position. -/
def updateMap (a b : EnvMap) : EnvMap :=
  b.foldl (fun acc p => upsert p.1 p.2 acc) a

/-- Modelled from the spec: an interpolation atom produced by
`dotenv.variables.parse_variables` (not under `src/`) — a literal fragment
or a variable reference with an optional default. -/
inductive Atom : Type
  | lit (text : String)
  | var (name : String) (default : Option String)
  deriving DecidableEq, Repr

/-- Modelled from the spec: `Atom.resolve` — a literal contributes its
text; a reference contributes the value bound in `env` when present and
non-absent, the empty string when present-but-absent, and its default
(else the empty string) when the name is unresolvable.  Never fails. -/
def Atom.resolve (env : EnvMap) : Atom → String
  | .lit s => s
  | .var n d =>
    match lookupK n env with
    | some (some v) => v
    | some none => ""
    | none => d.getD ""

/-- Split a `$\x7bNAME:-default\x7d` body at the first `:-` into name and
optional default. -/
def splitDefault : List Char → List Char × Option (List Char)
  | [] => ([], none)
  | ':' :: '-' :: rest => ([], some rest)
  | c :: rest =>
    let p := splitDefault rest
    (c :: p.1, p.2)

/-- Modelled from the spec: the interpolation-atom tokenizer
`dotenv.variables.parse_variables` (not under `src/`), which splits a raw
value into literal fragments and `$\x7bNAME\x7d` / `$\x7bNAME:-default\x7d`
references covering the whole string.  A single left-to-right scan; the
first argument is `none` outside a reference and `some body` (reversed
accumulated body characters) inside an unclosed `$\x7b`. -/
def parseVarsAux : Option (List Char) → List Char → List Atom
  | none, [] => []
  | none, '$' :: '{' :: rest => parseVarsAux (some []) rest
  | none, c :: rest => Atom.lit (String.mk [c]) :: parseVarsAux none rest
  | some acc, [] => [Atom.lit (String.mk ('$' :: '{' :: acc.reverse))]
  | some acc, '}' :: rest =>
    let nd := splitDefault acc.reverse
    Atom.var (String.mk nd.1) (nd.2.map String.mk) :: parseVarsAux none rest
  | some acc, c :: rest => parseVarsAux (some (c :: acc)) rest

/-- Modelled from the spec: `parse_variables` on a raw string value. -/
def parse_variables (value : String) : List Atom :=
  parseVarsAux none value.data

/-- `resolve_variables` from `main.py`: fold the raw pairs in order; an
absent raw value resolves to absent; otherwise the value's atoms are
resolved against `base_env` overlaid with the accumulator (`override`
true) or the accumulator overlaid with `base_env` (`override` false). -/
def resolve_variables (values : List (String × Option String)) (override : Bool)
    (base_env : EnvMap) : EnvMap :=
  values.foldl
    (fun new_values nv =>
      let result : Option String :=
        match nv.2 with
        | none => none
        | some value =>
          let atoms := parse_variables value
          let env := if override then updateMap base_env new_values
                     else updateMap new_values base_env
          some (String.join (atoms.map (Atom.resolve env)))
      upsert nv.1 result new_values)
    []

/-- `DotEnv.update_dict` from `main.py`: `dict0` models `self._dict`
(`none` before the first load).  With interpolation the effective base
environment composes `base_env` and the already-accumulated dict per
`override`, the raw pairs go through `resolve_variables`, and the result
is merged into the accumulated dict unconditionally. -/
def update_dict (interpolate override : Bool) (base_env : EnvMap)
    (dict0 : Option EnvMap) (raw_values : List (String × Option String)) : EnvMap :=
  let target := dict0.getD []
  if interpolate then
    let base := if override then updateMap base_env (dict0.getD [])
                else updateMap (dict0.getD []) base_env
    updateMap target (resolve_variables raw_values override base)
  else
    updateMap target raw_values

/-- Errors raised by the embedded operations: `ValueError` for
configuration errors, `IOError` standing for any I/O failure raised inside
a rewrite body. -/
inductive Err : Type
  | valueError
  | ioError
  deriving DecidableEq, Repr

/-- `chained_dotenv_values` from `main.py`.  A source is modelled by its
parse output (the key/value pairs its binding stream yields); a `none`
entry models a `None` argument.  After the argument check, every source is
applied to the running aggregate with `override = True`; the final
`result.dict()` returns the aggregate unless it is falsy (empty), in which
case the first source is re-parsed and re-applied. -/
def chained_dotenv_values (sources : List (Option (List (String × Option String))))
    (base_env : EnvMap) : Except Err EnvMap :=
  if sources.isEmpty || sources.any Option.isNone then
    .error .valueError
  else
    match sources with
    | [] => .error .valueError
    | s₀ :: _ =>
      match sources.foldl
          (fun st arg => some (update_dict true true base_env st (arg.getD [])))
          (none : Option EnvMap) with
      | none => .error .valueError
      | some d =>
        if d.isEmpty then .ok (update_dict true true base_env (some d) (s₀.getD []))
        else .ok d

/-! ### Transactional rewriter and key mutators -/

/-- The file system visible to one rewrite transaction: the content of the
target path (`none` when the path does not exist) and the content of the
transaction's temporary file (`none` when no temporary file exists). -/
structure FS : Type where
  target : Option (List Char)
  temp : Option (List Char)
  deriving DecidableEq, Repr

/-- `rewrite` from `main.py`: if the target does not exist it is first
created empty; a temporary file is created; the body reads the full source
content and either returns the replacement content it wrote or raises.  On
an exception the temporary file is unlinked and the exception propagates;
on success the temporary file is moved over the target. -/
def rewrite (fs : FS) (body : List Char → Except Err (List Char)) :
    FS × Except Err Unit :=
  let fs₁ : FS := match fs.target with
    | none => { fs with target := some [] }
    | some _ => fs
  let fs₂ : FS := { fs₁ with temp := some [] }
  match body (fs₂.target.getD []) with
  | .error e => ({ fs₂ with temp := none }, .error e)
  | .ok written => ({ fs₂ with target := some written, temp := none }, .ok ())

/-- One parsed logical line, as produced by the binding stream:
`original` is the exact line text (trailing newline included), `key` is
absent for blank, comment and unparsable lines. -/
structure Binding : Type where
  key : Option String
  original : List Char
  deriving DecidableEq, Repr

/-- Split a character stream into lines, each keeping its trailing
newline character; a last line without a newline is kept as-is. -/
def splitLines : List Char → List (List Char)
  | [] => []
  | c :: rest =>
    if c = '\n' then [c] :: splitLines rest
    else
      match splitLines rest with
      | [] => [[c]]
      | line :: lines => (c :: line) :: lines

/-- Modelled from the spec: an optional `export ` marker in front of a
binding's key. -/
def dropExportMarker (l : List Char) : List Char :=
  match l with
  | 'e' :: 'x' :: 'p' :: 'o' :: 'r' :: 't' :: ' ' :: rest => rest
  | _ => l

/-- Characters before the first `=` of a line, or `none` when the line
has no `=` sign. -/
def takeKeyAux : List Char → Option (List Char)
  | [] => none
  | c :: rest =>
    if c = '=' then some []
    else if c = '\n' then none
    else (takeKeyAux rest).map (fun ks => c :: ks)

/-- Modelled from the spec: the key of one line of the file format
`[export ]KEY=VALUE` — `none` for comment lines, blank lines and lines
without a (non-empty) key before an `=`. -/
def lineKey (line : List Char) : Option String :=
  match line with
  | '#' :: _ => none
  | _ =>
    match takeKeyAux (dropExportMarker line) with
    | some [] => none
    | some ks => some (String.mk ks)
    | none => none

/-- Modelled from the spec: `dotenv.parser.parse_stream` (not under
`src/`) — the binding stream yields one binding per line, in file order,
with `original` reproducing the exact source line so that untouched lines
can be passed through byte-for-byte. -/
def parse_stream (content : List Char) : List Binding :=
  (splitLines content).map (fun line => { key := lineKey line, original := line })

/-- Python `str.isalnum` (ASCII model): non-empty and all characters
alphanumeric. -/
def pyIsAlnum (s : String) : Bool :=
  !s.data.isEmpty && s.data.all Char.isAlphanum

/-- Backslash-escape every single quote of the value, as
`value_to_set.replace("'", "\\'")` does. -/
def escapeQuotes : List Char → List Char
  | [] => []
  | c :: rest =>
    if c = '\'' then '\\' :: '\'' :: escapeQuotes rest
    else c :: escapeQuotes rest

/-- The output line `set_key` writes: `[export ]KEY=VALUE` with the value
quoted per `quote_mode`, newline-terminated. -/
def makeLineOut (key_to_set value_to_set quote_mode : String) (exportFlag : Bool) :
    List Char :=
  let quote := quote_mode = "always" ∨ (quote_mode = "auto" ∧ ¬ pyIsAlnum value_to_set)
  let value_out : List Char :=
    if quote then '\'' :: escapeQuotes value_to_set.data ++ ['\'']
    else value_to_set.data
  (if exportFlag then "export ".data else []) ++ key_to_set.data ++ '=' :: value_out ++ ['\n']

/-- The loop of `set_key` over the binding stream: accumulated output
characters plus the `replaced` flag.  A binding whose key matches is
replaced by `line_out`; every other binding is re-emitted via its
original text. -/
def setKeyFold (bindings : List Binding) (line_out : List Char) (key_to_set : String) :
    List Char × Bool :=
  bindings.foldl
    (fun acc b =>
      if b.key = some key_to_set then (acc.1 ++ line_out, true)
      else (acc.1 ++ b.original, acc.2))
    ([], false)

/-- The content `set_key` writes: the loop output, with the new line
appended when no existing binding matched. -/
def setKeyBody (bindings : List Binding) (line_out : List Char) (key_to_set : String) :
    List Char :=
  let r := setKeyFold bindings line_out key_to_set
  if r.2 then r.1 else r.1 ++ line_out

/-- `set_key` from `main.py`: validates `quote_mode` before any I/O, then
runs a rewrite transaction re-emitting every non-matching binding
verbatim and writing the new line for the matching one (appending it when
no binding matched). -/
def set_key (fs : FS) (key_to_set value_to_set quote_mode : String)
    (exportFlag : Bool) : FS × Except Err (Option Bool × String × String) :=
  if quote_mode ∈ (["always", "auto", "never"] : List String) then
    let line_out := makeLineOut key_to_set value_to_set quote_mode exportFlag
    let r := rewrite fs (fun src => .ok (setKeyBody (parse_stream src) line_out key_to_set))
    match r.2 with
    | .ok _ => (r.1, .ok (some true, key_to_set, value_to_set))
    | .error e => (r.1, .error e)
  else
    (fs, .error .valueError)

/-- The loop of `unset_key` over the binding stream: accumulated output
characters plus the `removed` flag.  A binding whose key matches is
dropped; every other binding is re-emitted via its original text. -/
def unsetFold (bindings : List Binding) (key_to_unset : String) :
    List Char × Bool :=
  bindings.foldl
    (fun acc b =>
      if b.key = some key_to_unset then (acc.1, true)
      else (acc.1 ++ b.original, acc.2))
    ([], false)

/-- `unset_key` from `main.py`: returns `(none, key)` without touching the
file system when the target path does not exist; otherwise runs a rewrite
transaction dropping matching bindings and re-emitting all others, and
returns `(some true, key)` when a binding was removed, `(none, key)`
otherwise (the transaction commits either way). -/
def unset_key (fs : FS) (key_to_unset : String) : FS × (Option Bool × String) :=
  match fs.target with
  | none => (fs, (none, key_to_unset))
  | some content =>
    let r := rewrite fs (fun src => .ok (unsetFold (parse_stream src) key_to_unset).1)
    let removed := (unsetFold (parse_stream content) key_to_unset).2
    (r.1, if removed then (some true, key_to_unset) else (none, key_to_unset))

/-- `DotEnv.set_as_environment_variables` from `main.py`: for each key of
the resolved dict in order, skip it when it is already present in the
ambient environment and `override` is false; otherwise write its value
unless the value is absent.  Always returns `True`. -/
def set_as_environment_variables (d : EnvMap) (environ : List (String × String))
    (override : Bool) : List (String × String) × Bool :=
  (d.foldl
    (fun env kv =>
      if (lookupK kv.1 env).isSome && !override then env
      else
        match kv.2 with
        | some s => upsert kv.1 s env
        | none => env)
    environ,
   true)

/-! ### Supporting lemmas -/

theorem lookupK_upsert_self {β : Type} (k : String) (v : β) (d : List (String × β)) :
    lookupK k (upsert k v d) = some v := by
  induction d with
  | nil => simp [upsert, lookupK]
  | cons p t ih =>
    obtain ⟨k₁, v₁⟩ := p
    by_cases h : k₁ = k
    · simp [upsert, h, lookupK]
    · simp [upsert, h, lookupK, ih]

theorem lookupK_upsert_ne {β : Type} (k k₁ : String) (v : β) (d : List (String × β))
    (h : k₁ ≠ k) : lookupK k (upsert k₁ v d) = lookupK k d := by
  induction d with
  | nil => simp [upsert, lookupK, h]
  | cons p t ih =>
    obtain ⟨k₂, v₂⟩ := p
    by_cases h₂ : k₂ = k₁
    · subst h₂
      simp [upsert, lookupK, h]
    · simp only [upsert, if_neg h₂]
      by_cases h₃ : k₂ = k
      · simp [lookupK, h₃]
      · simp [lookupK, h₃, ih]

theorem keysOf_upsert_mem {β : Type} (k : String) (v : β) (d : List (String × β))
    (h : k ∈ keysOf d) : keysOf (upsert k v d) = keysOf d := by
  induction d with
  | nil => simp [keysOf] at h
  | cons p t ih =>
    obtain ⟨k₁, v₁⟩ := p
    by_cases h₁ : k₁ = k
    · simp [upsert, h₁, keysOf]
    · have h₂ : k ∈ keysOf t := by
        simp only [keysOf, List.map_cons, List.mem_cons] at h
        rcases h with h | h
        · exact absurd h.symm h₁
        · exact h
      simp only [upsert, if_neg h₁, keysOf, List.map_cons]
      rw [show (upsert k v t).map Prod.fst = keysOf t from ih h₂]
      rfl

theorem keysOf_upsert_notMem {β : Type} (k : String) (v : β) (d : List (String × β))
    (h : k ∉ keysOf d) : keysOf (upsert k v d) = keysOf d ++ [k] := by
  induction d with
  | nil => simp [upsert, keysOf]
  | cons p t ih =>
    obtain ⟨k₁, v₁⟩ := p
    have h₁ : k₁ ≠ k := by
      intro hc
      exact h (by simp [keysOf, hc])
    have h₂ : k ∉ keysOf t := by
      intro hc
      exact h (by simp only [keysOf, List.map_cons, List.mem_cons]; exact Or.inr hc)
    simp only [upsert, if_neg h₁, keysOf, List.map_cons, List.cons_append]
    rw [show (upsert k v t).map Prod.fst = keysOf t ++ [k] from ih h₂]
    rfl

/-- The keys occurring in a list, first occurrences only, skipping those
already in `seen`: the iteration order of a Python dict built by repeated
assignment. -/
def firstOcc (seen : List String) : List String → List String
  | [] => []
  | k :: ks => if k ∈ seen then firstOcc seen ks else k :: firstOcc (k :: seen) ks

theorem firstOcc_congr (s₁ s₂ l : List String) (h : ∀ x, x ∈ s₁ ↔ x ∈ s₂) :
    firstOcc s₁ l = firstOcc s₂ l := by
  induction l generalizing s₁ s₂ with
  | nil => rfl
  | cons k ks ih =>
    simp only [firstOcc]
    by_cases hk : k ∈ s₁
    · rw [if_pos hk, if_pos ((h k).1 hk), ih s₁ s₂ h]
    · rw [if_neg hk, if_neg (fun hc => hk ((h k).2 hc))]
      rw [ih (k :: s₁) (k :: s₂) (fun x => by simp [h x])]

theorem firstOcc_firstOcc (s t l : List String) (h : ∀ x, x ∈ t → x ∈ s) :
    firstOcc s (firstOcc t l) = firstOcc s l := by
  induction l generalizing s t with
  | nil => rfl
  | cons k ks ih =>
    simp only [firstOcc]
    by_cases hkt : k ∈ t
    · rw [if_pos hkt, if_pos (h k hkt), ih s t h]
    · rw [if_neg hkt]
      by_cases hks : k ∈ s
      · simp only [firstOcc, if_pos hks]
        refine ih s (k :: t) ?_
        intro x hx
        rcases List.mem_cons.1 hx with hx | hx
        · exact hx ▸ hks
        · exact h x hx
      · simp only [firstOcc, if_neg hks]
        refine congrArg (k :: ·) (ih (k :: s) (k :: t) ?_)
        intro x hx
        rcases List.mem_cons.1 hx with hx | hx
        · exact hx ▸ List.mem_cons_self k s
        · exact List.mem_cons_of_mem k (h x hx)

theorem keysOf_fold_upsert (g : (String × Option String) → EnvMap → Option String)
    (ps : List (String × Option String)) :
    ∀ a : EnvMap,
      keysOf (ps.foldl (fun acc p => upsert p.1 (g p acc) acc) a) =
        keysOf a ++ firstOcc (keysOf a) (ps.map Prod.fst) := by
  induction ps with
  | nil =>
    intro a
    simp [firstOcc]
  | cons p t ih =>
    intro a
    simp only [List.foldl_cons, List.map_cons, firstOcc]
    by_cases h : p.1 ∈ keysOf a
    · rw [if_pos h, ih, keysOf_upsert_mem _ _ _ h]
    · rw [if_neg h, ih, keysOf_upsert_notMem _ _ _ h]
      rw [firstOcc_congr (keysOf a ++ [p.1]) (p.1 :: keysOf a) (t.map Prod.fst)
        (fun x => by simp [or_comm])]
      simp

theorem keysOf_resolve_variables (values : List (String × Option String)) (ov : Bool)
    (base_env : EnvMap) :
    keysOf (resolve_variables values ov base_env) = firstOcc [] (values.map Prod.fst) :=
  keysOf_fold_upsert
    (fun nv new_values =>
      match nv.2 with
      | none => none
      | some value =>
        let atoms := parse_variables value
        let env := if ov then updateMap base_env new_values
                   else updateMap new_values base_env
        some (String.join (atoms.map (Atom.resolve env))))
    values []

theorem keysOf_updateMap (a b : EnvMap) :
    keysOf (updateMap a b) = keysOf a ++ firstOcc (keysOf a) (keysOf b) :=
  keysOf_fold_upsert (fun p _ => p.2) b a

theorem join_splitLines (l : List Char) : (splitLines l).flatten = l := by
  induction l with
  | nil => simp [splitLines]
  | cons c rest ih =>
    simp only [splitLines]
    by_cases h : c = '\n'
    · simp [h, ih]
    · rw [if_neg h]
      cases hs : splitLines rest with
      | nil =>
        rw [hs] at ih
        simp at ih
        simp [ih]
      | cons line lines =>
        rw [hs] at ih
        simp only [List.flatten_cons] at ih ⊢
        simp [ih]

theorem join_originals (content : List Char) :
    ((parse_stream content).map Binding.original).flatten = content := by
  simp only [parse_stream, List.map_map]
  have h : (Binding.original ∘ fun line => Binding.mk (lineKey line) line) = id := by
    funext line
    rfl
  rw [h, List.map_id]
  exact join_splitLines content

theorem rewrite_ok (fs : FS) (content out : List Char)
    (body : List Char → Except Err (List Char)) (h : fs.target = some content)
    (hb : body content = .ok out) :
    rewrite fs body = (⟨some out, none⟩, .ok ()) := by
  simp only [rewrite, h, Option.getD_some]
  rw [hb]

theorem rewrite_error (fs : FS) (content : List Char)
    (body : List Char → Except Err (List Char)) (e : Err) (h : fs.target = some content)
    (hb : body content = .error e) :
    rewrite fs body = (⟨some content, none⟩, .error e) := by
  simp only [rewrite, h, Option.getD_some]
  rw [hb]

theorem rewrite_missing_error (fs : FS)
    (body : List Char → Except Err (List Char)) (e : Err) (h : fs.target = none)
    (hb : body [] = .error e) :
    rewrite fs body = (⟨some [], none⟩, .error e) := by
  simp only [rewrite, h, Option.getD_some]
  rw [hb]

theorem setKeyFold_general (line_out : List Char) (k : String) (bs : List Binding) :
    ∀ (acc : List Char) (flag : Bool),
      bs.foldl
        (fun acc b =>
          if b.key = some k then (acc.1 ++ line_out, true)
          else (acc.1 ++ b.original, acc.2))
        (acc, flag) =
      (acc ++ (bs.map fun b => if b.key = some k then line_out else b.original).flatten,
       flag || bs.any fun b => b.key = some k) := by
  induction bs with
  | nil =>
    intro acc flag
    simp
  | cons b t ih =>
    intro acc flag
    simp only [List.foldl_cons, List.map_cons, List.flatten_cons, List.any_cons]
    by_cases h : b.key = some k
    · rw [if_pos h, ih]
      simp [h, List.append_assoc]
    · rw [if_neg h, ih]
      simp [h, List.append_assoc]

theorem setKeyFold_eq (bs : List Binding) (line_out : List Char) (k : String) :
    setKeyFold bs line_out k =
      ((bs.map fun b => if b.key = some k then line_out else b.original).flatten,
       bs.any fun b => b.key = some k) := by
  simpa using setKeyFold_general line_out k bs [] false

theorem setKeyBody_eq (bs : List Binding) (line_out : List Char) (k : String) :
    setKeyBody bs line_out k =
      (bs.map fun b => if b.key = some k then line_out else b.original).flatten ++
        (if bs.any (fun b => b.key = some k) then [] else line_out) := by
  simp only [setKeyBody, setKeyFold_eq]
  cases hb : bs.any fun b => b.key = some k <;> simp [hb]

theorem unsetFold_general (k : String) (bs : List Binding) :
    ∀ (acc : List Char) (flag : Bool),
      bs.foldl
        (fun acc b =>
          if b.key = some k then (acc.1, true)
          else (acc.1 ++ b.original, acc.2))
        (acc, flag) =
      (acc ++ ((bs.filter fun b => b.key ≠ some k).map Binding.original).flatten,
       flag || bs.any fun b => b.key = some k) := by
  induction bs with
  | nil =>
    intro acc flag
    simp
  | cons b t ih =>
    intro acc flag
    simp only [List.foldl_cons, List.any_cons]
    by_cases h : b.key = some k
    · rw [if_pos h, ih]
      simp [h, List.filter_cons]
    · rw [if_neg h, ih]
      simp [h, List.filter_cons, List.append_assoc]

theorem unsetFold_eq (bs : List Binding) (k : String) :
    unsetFold bs k =
      (((bs.filter fun b => b.key ≠ some k).map Binding.original).flatten,
       bs.any fun b => b.key = some k) := by
  simpa using unsetFold_general k bs [] false

theorem setEnvFold_preserve (ov : Bool) (k : String) (t : EnvMap) :
    ∀ env : List (String × String),
      k ∉ keysOf t →
      lookupK k
        (t.foldl
          (fun env kv =>
            if (lookupK kv.1 env).isSome && !ov then env
            else
              match kv.2 with
              | some s => upsert kv.1 s env
              | none => env)
          env) = lookupK k env := by
  induction t with
  | nil =>
    intro env _
    rfl
  | cons p t ih =>
    intro env hk
    obtain ⟨k₁, v₁⟩ := p
    have h₁ : k₁ ≠ k := by
      intro hc
      exact hk (by simp [keysOf, hc])
    have h₂ : k ∉ keysOf t := by
      intro hc
      exact hk (by simp only [keysOf, List.map_cons, List.mem_cons]; exact Or.inr hc)
    simp only [List.foldl_cons]
    rw [ih _ h₂]
    by_cases hc : (lookupK k₁ env).isSome && !ov
    · rw [if_pos hc]
    · rw [if_neg hc]
      cases v₁ with
      | none => rfl
      | some s => exact lookupK_upsert_ne k k₁ s env h₁

theorem setEnv_lookup_absent (ov : Bool) (k : String) (d : EnvMap) :
    ∀ env : List (String × String),
      (k, (none : Option String)) ∈ d → (keysOf d).Nodup →
      lookupK k ((set_as_environment_variables d env ov).1) = lookupK k env := by
  induction d with
  | nil =>
    intro env h _
    simp at h
  | cons p t ih =>
    intro env hmem hnd
    obtain ⟨k₁, v₁⟩ := p
    have hnd' := hnd
    simp only [keysOf, List.map_cons, List.nodup_cons] at hnd'
    have hnd₁ : k₁ ∉ keysOf t := hnd'.1
    have hnd₂ : (keysOf t).Nodup := hnd'.2
    simp only [set_as_environment_variables, List.foldl_cons] at ih ⊢
    rcases List.mem_cons.1 hmem with heq | hmem'
    · injection heq.symm with hk hv
      subst hk
      subst hv
      have hinit : (if (lookupK k₁ env).isSome && !ov then env
          else
            match (none : Option String) with
            | some s => upsert k₁ s env
            | none => env) = env := by
        split <;> rfl
      rw [hinit]
      exact setEnvFold_preserve ov k₁ t env hnd₁
    · have hkt : k ∈ keysOf t := by
        simp only [keysOf, List.mem_map]
        exact ⟨(k, none), hmem', rfl⟩
      have hne : k₁ ≠ k := fun hc => hnd₁ (hc ▸ hkt)
      clear hmem hnd hnd'
      have hstep : lookupK k (if (lookupK k₁ env).isSome && !ov then env
          else
            match v₁ with
            | some s => upsert k₁ s env
            | none => env) = lookupK k env := by
        by_cases hc : (lookupK k₁ env).isSome && !ov
        · rw [if_pos hc]
        · rw [if_neg hc]
          cases v₁ with
          | none => rfl
          | some s => exact lookupK_upsert_ne k k₁ s env hne
      rw [ih _ hmem' hnd₂, hstep]

/-! ### The claims -/

/-- C1, counterexample: with base environment `A = "1"` and file pair
`(A, "2")`, the mapping returned by `update_dict` (through
`resolve_variables`) does NOT map `A` to `"1"` when `override` is false —
the claimed conjunction is false. -/
theorem c1_counterexample :
    ¬ (lookupK "A" (update_dict true true [("A", some "1")] none [("A", some "2")]) =
          some (some "2") ∧
       lookupK "A" (update_dict true false [("A", some "1")] none [("A", some "2")]) =
          some (some "1")) := by
  decide

/-- C1, amended: with base environment `A = "1"` and file pair `(A, "2")`,
the resolved mapping returned via `resolve_variables` composed through
`update_dict` maps `A` to `"2"` both when `override` is true and when it
is false: `override` shapes only the lookup environment used by
interpolation, not whether file pairs overwrite base values in the
returned mapping. -/
theorem c1_override_merge :
    lookupK "A" (update_dict true true [("A", some "1")] none [("A", some "2")]) =
        some (some "2") ∧
    lookupK "A" (update_dict true false [("A", some "1")] none [("A", some "2")]) =
        some (some "2") := by
  decide

/-- C2, counterexample: a rewrite transaction on a path that does not
exist, whose body raises, leaves the target as an empty file rather than
restoring it to nonexistence — the target is not "exactly what it was
when the transaction began". -/
theorem c2_counterexample :
    ¬ ((rewrite ⟨none, none⟩ (fun _ => Except.error Err.ioError)).1.target =
        FS.target ⟨none, none⟩) := by
  decide

/-- C2, amended: for every rewrite transaction on a path that exists
whose body raises, after the exception propagates the target file's
content is exactly what it was when the transaction began, and the
transaction's temporary file no longer exists. -/
theorem c2_rewrite_atomic (fs : FS) (content : List Char)
    (body : List Char → Except Err (List Char)) (e : Err)
    (h : fs.target = some content) (hb : body content = .error e) :
    (rewrite fs body).1.target = some content ∧
    (rewrite fs body).1.temp = none ∧
    (rewrite fs body).2 = .error e := by
  rw [rewrite_error fs content body e h hb]
  exact ⟨rfl, rfl, rfl⟩

theorem c2_rewrite_atomic_witness :
    (rewrite ⟨some ['a'], none⟩ (fun _ => Except.error Err.ioError)).1.target = some ['a'] ∧
    (rewrite ⟨some ['a'], none⟩ (fun _ => Except.error Err.ioError)).1.temp = none ∧
    (rewrite ⟨some ['a'], none⟩ (fun _ => Except.error Err.ioError)).2 =
      .error Err.ioError :=
  c2_rewrite_atomic ⟨some ['a'], none⟩ ['a'] (fun _ => Except.error Err.ioError)
    Err.ioError rfl rfl

/-- C3: resolving `[(A, "1"), (B, "$\x7bA\x7d")]` with `override` true yields
`B = "1"` even with `A = "9"` in the base environment (the same-file
earlier definition shadows the base environment); with `override` false
and base environment `A = "9"` it yields `B = "9"` (the base environment
shadows the same-file definition). -/
theorem c3_self_reference_precedence :
    lookupK "B" (resolve_variables [("A", some "1"), ("B", some "${A}")] true
        [("A", some "9")]) = some (some "1") ∧
    lookupK "B" (resolve_variables [("A", some "1"), ("B", some "${A}")] false
        [("A", some "9")]) = some (some "9") := by
  decide

/-- C4: `chained_dotenv_values` on the two sources
`[\x7bA: "1"\x7d, \x7bA: "2", B: "$\x7bA\x7d"\x7d]` returns the mapping
`\x7bA: "2", B: "2"\x7d`: each later source is applied with override-true
semantics and its interpolation sees the running aggregate as higher
priority than the base environment. -/
theorem c4_chain_loading :
    chained_dotenv_values
        [some [("A", some "1")], some [("A", some "2"), ("B", some "${A}")]] [] =
      .ok [("A", some "2"), ("B", some "2")] := rfl

/-- C5: the mapping returned by `resolve_variables` iterates its keys in
first-definition order (`firstOcc`); the mapping accumulated by
`update_dict` extends the existing iteration order by the new keys in
first-definition order; and a later pair for an already-present key
(`upsert`) overwrites the value without changing the key set or order. -/
theorem c5_order_preservation (values : List (String × Option String)) (ov : Bool)
    (base d₀ : EnvMap) (raw : List (String × Option String)) (k : String)
    (v : Option String) (d : EnvMap) (hk : k ∈ keysOf d) :
    keysOf (resolve_variables values ov base) = firstOcc [] (values.map Prod.fst) ∧
    keysOf (update_dict true ov base (some d₀) raw) =
      keysOf d₀ ++ firstOcc (keysOf d₀) (raw.map Prod.fst) ∧
    keysOf (upsert k v d) = keysOf d ∧
    lookupK k (upsert k v d) = some v := by
  refine ⟨keysOf_resolve_variables values ov base, ?_,
    keysOf_upsert_mem k v d hk, lookupK_upsert_self k v d⟩
  have h₁ : update_dict true ov base (some d₀) raw =
      updateMap d₀ (resolve_variables raw ov
        (if ov then updateMap base d₀ else updateMap d₀ base)) := rfl
  rw [h₁, keysOf_updateMap, keysOf_resolve_variables,
    firstOcc_firstOcc (keysOf d₀) [] (raw.map Prod.fst)
      (fun x hx => absurd hx (List.not_mem_nil x))]

theorem c5_order_preservation_witness :
    keysOf (resolve_variables [("A", some "1"), ("B", some "2"), ("A", some "3")] true []) =
      firstOcc []
        (([("A", some "1"), ("B", some "2"), ("A", some "3")] : EnvMap).map Prod.fst) ∧
    keysOf (update_dict true true [] (some [("B", some "0")]) [("A", some "1")]) =
      keysOf [("B", some "0")] ++
        firstOcc (keysOf [("B", some "0")])
          (([("A", some "1")] : EnvMap).map Prod.fst) ∧
    keysOf (upsert "A" (some "9") [("A", some "1"), ("B", none)]) =
      keysOf [("A", some "1"), ("B", none)] ∧
    lookupK "A" (upsert "A" (some "9") [("A", some "1"), ("B", none)]) = some (some "9") :=
  c5_order_preservation [("A", some "1"), ("B", some "2"), ("A", some "3")] true []
    [("B", some "0")] [("A", some "1")] "A" (some "9") [("A", some "1"), ("B", none)]
    (by decide)

/-- C6: on any file content, `set_key` and `unset_key` re-emit every
binding whose key does not match the targeted key — comment lines and
malformed lines included, since their key is absent — byte-identically
via the binding's original line text: the rewritten content is exactly
the concatenation of the per-binding chunks, where every non-matching
binding contributes its original line unchanged (matching bindings are
replaced by the new line, or dropped, respectively). -/
theorem c6_line_preservation (fs : FS) (content : List Char) (k v : String)
    (ex : Bool) (h : fs.target = some content) :
    (set_key fs k v "always" ex).1.target =
      some (((parse_stream content).map fun b =>
          if b.key = some k then makeLineOut k v "always" ex else b.original).flatten ++
        (if (parse_stream content).any (fun b => b.key = some k) then []
         else makeLineOut k v "always" ex)) ∧
    (unset_key fs k).1.target =
      some (((parse_stream content).filter fun b =>
          b.key ≠ some k).map Binding.original).flatten := by
  constructor
  · have hmem : ("always" : String) ∈ (["always", "auto", "never"] : List String) := by
      decide
    have hrw := rewrite_ok fs content
      (setKeyBody (parse_stream content) (makeLineOut k v "always" ex) k)
      (fun src => .ok (setKeyBody (parse_stream src) (makeLineOut k v "always" ex) k))
      h rfl
    simp only [set_key, if_pos hmem, hrw]
    rw [setKeyBody_eq]
  · have hrw := rewrite_ok fs content
      ((unsetFold (parse_stream content) k).1)
      (fun src => .ok ((unsetFold (parse_stream src) k).1)) h rfl
    simp only [unset_key, h, hrw]
    rw [unsetFold_eq]

theorem c6_line_preservation_witness :
    (set_key ⟨some "#c\nbad\nA=1\n".data, none⟩ "A" "2" "always" false).1.target =
      some (((parse_stream "#c\nbad\nA=1\n".data).map fun b =>
          if b.key = some "A" then makeLineOut "A" "2" "always" false
          else b.original).flatten ++
        (if (parse_stream "#c\nbad\nA=1\n".data).any (fun b => b.key = some "A") then []
         else makeLineOut "A" "2" "always" false)) ∧
    (unset_key ⟨some "#c\nbad\nA=1\n".data, none⟩ "A").1.target =
      some (((parse_stream "#c\nbad\nA=1\n".data).filter fun b =>
          b.key ≠ some "A").map Binding.original).flatten :=
  c6_line_preservation ⟨some "#c\nbad\nA=1\n".data, none⟩ "#c\nbad\nA=1\n".data
    "A" "2" false rfl

/-- C7: `unset_key` never fails — on a missing target path it returns
`(none, key)` and leaves the file system untouched; on an existing file
in which no binding's key matches, the transaction still commits, the
file content is byte-identical afterwards, no temporary file remains,
and the result indicates not-removed. -/
theorem c7_unset_tolerance (fs₁ fs₂ : FS) (content : List Char) (k : String)
    (h₁ : fs₁.target = none) (h₂ : fs₂.target = some content)
    (h₃ : ∀ b ∈ parse_stream content, ¬ b.key = some k) :
    unset_key fs₁ k = (fs₁, (none, k)) ∧
    (unset_key fs₂ k).1.target = some content ∧
    (unset_key fs₂ k).1.temp = none ∧
    (unset_key fs₂ k).2 = (none, k) := by
  have hfilter : ((parse_stream content).filter fun b => b.key ≠ some k) =
      parse_stream content := by
    refine List.filter_eq_self.2 ?_
    intro b hb
    simpa using h₃ b hb
  have hout : (unsetFold (parse_stream content) k).1 = content := by
    rw [unsetFold_eq]
    simp only [hfilter]
    exact join_originals content
  have hrem : (unsetFold (parse_stream content) k).2 = false := by
    rw [unsetFold_eq]
    simp only [List.any_eq_false]
    intro b hb
    simpa using h₃ b hb
  have hrw := rewrite_ok fs₂ content content
    (fun src => .ok ((unsetFold (parse_stream src) k).1)) h₂
    (congrArg Except.ok hout)
  refine ⟨by simp [unset_key, h₁], ?_, ?_, ?_⟩ <;>
    simp [unset_key, h₂, hrw, hrem]

theorem c7_unset_tolerance_witness :
    unset_key ⟨none, none⟩ "B" = (⟨none, none⟩, (none, "B")) ∧
    (unset_key ⟨some "A=1\n#c\n".data, none⟩ "B").1.target = some "A=1\n#c\n".data ∧
    (unset_key ⟨some "A=1\n#c\n".data, none⟩ "B").1.temp = none ∧
    (unset_key ⟨some "A=1\n#c\n".data, none⟩ "B").2 = (none, "B") :=
  c7_unset_tolerance ⟨none, none⟩ ⟨some "A=1\n#c\n".data, none⟩ "A=1\n#c\n".data "B"
    rfl rfl (by decide)

/-- C8: configuration errors fail fast before any I/O side effect —
`set_key` with a `quote_mode` outside always/auto/never returns the
configuration error with the file system unchanged, and
`chained_dotenv_values` on an empty source sequence or one containing a
null entry returns the configuration error before reading any source. -/
theorem c8_config_errors_fail_fast (fs : FS) (k v qm : String) (ex : Bool)
    (sources : List (Option (List (String × Option String)))) (base : EnvMap)
    (h₁ : qm ∉ (["always", "auto", "never"] : List String))
    (h₂ : sources = [] ∨ (none : Option (List (String × Option String))) ∈ sources) :
    set_key fs k v qm ex = (fs, .error .valueError) ∧
    chained_dotenv_values sources base = .error .valueError := by
  constructor
  · simp [set_key, h₁]
  · rcases h₂ with h₂ | h₂
    · subst h₂
      rfl
    · have ha : sources.any Option.isNone = true := List.any_eq_true.2 ⟨none, h₂, rfl⟩
      simp [chained_dotenv_values, ha]

theorem c8_config_errors_fail_fast_witness :
    set_key ⟨some "A=1\n".data, none⟩ "A" "1" "bad" false =
      (⟨some "A=1\n".data, none⟩, .error .valueError) ∧
    chained_dotenv_values ([] : List (Option (List (String × Option String)))) [] =
      .error .valueError :=
  c8_config_errors_fail_fast ⟨some "A=1\n".data, none⟩ "A" "1" "bad" false [] []
    (by decide) (Or.inl rfl)

/-- C9: a rewrite transaction on a path that does not exist first creates
the target as an empty file, and this creation is not rolled back — when
the body then raises, afterwards the target exists as an empty file (not
restored to nonexistence), the temporary file is gone and the exception
propagates. -/
theorem c9_create_not_rolled_back (fs : FS)
    (body : List Char → Except Err (List Char)) (e : Err)
    (h₁ : fs.target = none) (h₂ : body [] = .error e) :
    (rewrite fs body).1.target = some [] ∧
    (rewrite fs body).1.temp = none ∧
    (rewrite fs body).2 = .error e := by
  rw [rewrite_missing_error fs body e h₁ h₂]
  exact ⟨rfl, rfl, rfl⟩

theorem c9_create_not_rolled_back_witness :
    (rewrite ⟨none, none⟩ (fun _ => Except.error Err.ioError)).1.target = some [] ∧
    (rewrite ⟨none, none⟩ (fun _ => Except.error Err.ioError)).1.temp = none ∧
    (rewrite ⟨none, none⟩ (fun _ => Except.error Err.ioError)).2 = .error Err.ioError :=
  c9_create_not_rolled_back ⟨none, none⟩ (fun _ => Except.error Err.ioError)
    Err.ioError rfl rfl

/-- C10: `set_as_environment_variables` never writes a key whose resolved
value is absent into the ambient environment — for every such key the
ambient environment entry is unchanged, even when `override` is true —
and the operation always returns `True`. -/
theorem c10_absent_values_never_written (d : EnvMap) (environ : List (String × String))
    (ov : Bool) (k : String) (h₁ : (k, (none : Option String)) ∈ d)
    (h₂ : (keysOf d).Nodup) :
    lookupK k ((set_as_environment_variables d environ ov).1) = lookupK k environ ∧
    (set_as_environment_variables d environ ov).2 = true :=
  ⟨setEnv_lookup_absent ov k d environ h₁ h₂, rfl⟩

theorem c10_absent_values_never_written_witness :
    lookupK "A"
        ((set_as_environment_variables [("A", none), ("B", some "2")] [("A", "0")] true).1) =
      lookupK "A" [("A", "0")] ∧
    (set_as_environment_variables [("A", none), ("B", some "2")] [("A", "0")] true).2 =
      true :=
  c10_absent_values_never_written [("A", none), ("B", some "2")] [("A", "0")] true "A"
    (by decide) (by decide)

end Dotenv
